import Mathlib

/-!
Verification of the openscope flight-management route core against its
specification.  The development shallowly embeds two source files:

* `src/assets/scripts/client/aircraft/FlightManagementSystem/RouteModel.js`
* the `WaypointModel` class file (provided without a path)

JavaScript strings are embedded as lists of characters, JavaScript arrays as
Lean lists, and fallible operations return `Option` or `Except`.  Numeric
fields that the code only stores and compares against integer sentinels are
embedded as `Int`.  External collaborators that are not among the sources
(the leg model, the navigation library, the route and global constants) are
modelled from the specification; each such definition carries a doc comment
saying so.
-/

/-- A JavaScript string, embedded as its list of characters. -/
abbrev Str : Type := List Char

/-- Coercion from Lean string literals into the `Str` embedding. -/
def S (s : String) : Str := s.toList

namespace Openscope

/-- Modelled from the spec: `PROCEDURE_OR_AIRWAY_SEGMENT_DIVIDER` lives in the
route-constants module, which is not among the sources.  The spec fixes two
distinct reserved single-character dividers and writes the procedure-or-airway
divider as a dot in every example. -/
def PROCEDURE_OR_AIRWAY_SEGMENT_DIVIDER : Char := '.'

/-- Modelled from the spec: `DIRECT_SEGMENT_DIVIDER` lives in the
route-constants module, which is not among the sources.  The spec only states
that it is a reserved single character distinct from the procedure divider, so
the embedding fixes the colon as its concrete value. -/
def DIRECT_SEGMENT_DIVIDER : Char := ':'

/-- Modelled from the spec: `INVALID_NUMBER` lives in the global-constants
module, which is not among the sources; the spec describes the sentinel
"unset" value as -1. -/
def INVALID_NUMBER : Int := -1

/-- Modelled from the spec: the RNAV point-in-space marker from the
route-constants module, which is not among the sources.  The spec says such
waypoints carry a reserved marker in their identifier; the underscore is used
here. -/
def RNAV_WAYPOINT_PREFIX : Char := '_'

/-- Modelled from the spec: the fixed generic label under which RNAV
point-in-space waypoints are displayed. -/
def RNAV_WAYPOINT_DISPLAY_NAME : Str := S "RNAV"

/-- JavaScript `Array.prototype.join` with a single-character separator. -/
def joinSep (c : Char) (parts : List Str) : Str := [c].intercalate parts

/-- Lodash `_first`: the head of a list.  The embedding returns the empty
string where lodash would return `undefined`; every use below is on a list
that is provably nonempty. -/
def jsFirst (l : List Str) : Str := l.headD []

/-- Lodash `_last`: the last element of a list.  The embedding returns the
empty string where lodash would return `undefined`; every use below is on a
list that is provably nonempty. -/
def jsLast (l : List Str) : Str := l.getLastD []

/-- JavaScript `String.prototype.replace` with a plain-string pattern and the
empty replacement: it removes the first occurrence of the pattern and returns
the string unchanged when the pattern does not occur. -/
def replaceFirst (pat : Str) (s : Str) : Str :=
  if pat.isPrefixOf s then s.drop pat.length
  else
    match s with
    | [] => []
    | c :: rest => c :: replaceFirst pat rest

/-- Lodash `_chunk` with size 2: groups a list into consecutive pairs, the
last group possibly a singleton. -/
def chunkPairs : List α → List (List α)
  | [] => []
  | [a] => [[a]]
  | a :: b :: rest => [a, b] :: chunkPairs rest

end Openscope

namespace Openscope

/-- The `WaypointModel` class (transcribed from the waypoint source file).
Field names and order follow the constructor; numeric fields are stored and
compared only against integer sentinels, so they are embedded as `Int`, and
the opaque position reference is embedded as an optional handle. -/
structure WaypointModel where
  altitudeMaximum : Int
  altitudeMinimum : Int
  isHold : Bool
  speedMaximum : Int
  speedMinimum : Int
  timer : Int
  _holdingPatternInboundHeading : Int
  _isFlyOverWaypoint : Bool
  _isVector : Bool
  _legLength : Str
  _name : Str
  _positionModel : Option Nat
  _turnDirection : Str
deriving DecidableEq, Repr

/-- Default field values assigned by the `WaypointModel` constructor before
`init` runs (transcribed from the constructor body). -/
def waypointDefaults : WaypointModel where
  altitudeMaximum := -1
  altitudeMinimum := -1
  isHold := false
  speedMaximum := -1
  speedMinimum := -1
  timer := -999
  _holdingPatternInboundHeading := -1
  _isFlyOverWaypoint := false
  _isVector := false
  _legLength := []
  _name := []
  _positionModel := none
  _turnDirection := []

/-- The public `name` getter (transcribed): when the stored identifier
contains the RNAV marker the fixed display label is returned, otherwise the
stored identifier itself. -/
def WaypointModel.name (w : WaypointModel) : Str :=
  if w._name.contains RNAV_WAYPOINT_PREFIX then RNAV_WAYPOINT_DISPLAY_NAME
  else w._name

/-- The public `name` setter (transcribed).  Its body assigns `this._name`
from the free identifier `name`, not from its parameter `nameUpdate`.  Under
strict-mode module semantics the free identifier resolves through the global
environment, modelled here by the argument `globalNameBinding`: when no global
binding named `name` exists the read throws a `ReferenceError` (the
`Except.error` case) and no field is written. -/
def WaypointModel.setName (globalNameBinding : Option Str) (w : WaypointModel)
    (_nameUpdate : Str) : Except Unit WaypointModel :=
  match globalNameBinding with
  | none => Except.error ()
  | some v => Except.ok { w with _name := v }

/-- The `destroy` method (transcribed): it writes exactly the ten fields
listed in its body and touches nothing else. -/
def WaypointModel.destroy (w : WaypointModel) : WaypointModel :=
  { w with
    _name := []
    _turnDirection := []
    _legLength := []
    _positionModel := none
    isHold := false
    speedMaximum := -1
    speedMinimum := -1
    altitudeMaximum := -1
    altitudeMinimum := -1
    timer := -999 }

/-- The `updateWaypointWithHoldProps` method (transcribed). -/
def WaypointModel.updateWaypointWithHoldProps (w : WaypointModel)
    (inboundHeading : Int) (turnDirection : Str) (legLength : Str) :
    WaypointModel :=
  { w with
    isHold := true
    _holdingPatternInboundHeading := inboundHeading
    _turnDirection := turnDirection
    _legLength := legLength }

/-- A concrete waypoint whose vector flag, fly-over flag and inbound heading
differ from the constructor defaults. -/
def demoVectorWaypoint : WaypointModel :=
  { waypointDefaults with
    _name := S "boach"
    _isVector := true
    _isFlyOverWaypoint := true
    _holdingPatternInboundHeading := 2 }

/-- Modelled from the spec: `LegModel.js` is not among the sources.  Per the
spec a leg carries the route-string segment it was built from (its canonical
string form, used when reassembling a full route string), an ordered remaining
waypoint sequence together with the waypoints already flown within the leg,
SID/STAR classification flags, and procedure bottom/top altitudes that are a
sentinel value when no constraint exists. -/
structure LegModel where
  routeString : Str
  previousWaypoints : List WaypointModel
  waypoints : List WaypointModel
  isSidLeg : Bool
  isStarLeg : Bool
  procedureBottomAltitude : Int
  procedureTopAltitude : Int
deriving DecidableEq, Repr

/-- Modelled from the spec: whether a next waypoint exists after the current
one (the head of the remaining sequence) within the leg. -/
def LegModel.hasNextWaypoint (leg : LegModel) : Bool :=
  leg.waypoints.length > 1

/-- Modelled from the spec: advancing within the leg moves the current
waypoint out of the remaining sequence and into the flown sequence. -/
def LegModel.skipToNextWaypoint (leg : LegModel) : LegModel :=
  match leg.waypoints with
  | [] => leg
  | w :: rest =>
    { leg with
      previousWaypoints := leg.previousWaypoints ++ [w]
      waypoints := rest }

/-- Modelled from the spec: whether the leg still contains a waypoint with
the given name among its remaining waypoints. -/
def LegModel.hasWaypoint (leg : LegModel) (waypointName : Str) : Bool :=
  leg.waypoints.any (fun w => w.name == waypointName)

/-- Scan of the remaining waypoints for the first one with the given name,
accumulating the skipped prefix onto the flown sequence. -/
def LegModel.skipToWaypointAux (waypointName : Str)
    (flown : List WaypointModel) :
    List WaypointModel → Option (List WaypointModel × List WaypointModel)
  | [] => none
  | w :: rest =>
    if w.name == waypointName then some (flown, w :: rest)
    else LegModel.skipToWaypointAux waypointName (flown ++ [w]) rest

/-- Modelled from the spec: `skipToWaypoint(name)` advances the leg's cursor
to the named waypoint, moving the preceding waypoints out of the remaining
sequence, and reports whether the advance succeeded. -/
def LegModel.skipToWaypoint (leg : LegModel) (waypointName : Str) :
    Bool × LegModel :=
  match LegModel.skipToWaypointAux waypointName leg.previousWaypoints
      leg.waypoints with
  | none => (false, leg)
  | some (flown, remaining) =>
    (true, { leg with previousWaypoints := flown, waypoints := remaining })

/-- The `RouteModel` class state (transcribed): the remaining legs and the
previously flown legs. -/
structure RouteModel where
  _legCollection : List LegModel
  _previousLegCollection : List LegModel
deriving DecidableEq, Repr

/-- The `waypoints` getter (transcribed): the concatenation of the waypoints
of all remaining legs. -/
def RouteModel.waypoints (r : RouteModel) : List WaypointModel :=
  (r._legCollection.map (fun legModel => legModel.waypoints)).flatten

/-- The `hasNextLeg` method (transcribed). -/
def RouteModel.hasNextLeg (r : RouteModel) : Bool :=
  r._legCollection.length > 1

/-- The `hasWaypoint` method (transcribed): whether any remaining leg
contains a waypoint with the given name. -/
def RouteModel.hasWaypoint (r : RouteModel) (waypointName : Str) : Bool :=
  r._legCollection.any (fun legModel => legModel.hasWaypoint waypointName)

/-- The `skipToNextLeg` method (transcribed): a no-op without a next leg,
otherwise the current leg is spliced out of the remaining collection and
pushed onto the previous collection. -/
def RouteModel.skipToNextLeg (r : RouteModel) : RouteModel :=
  if r.hasNextLeg then
    { _legCollection := r._legCollection.drop 1
      _previousLegCollection :=
        r._previousLegCollection ++ r._legCollection.take 1 }
  else r

/-- The `skipToNextWaypoint` method (transcribed): delegates to
`skipToNextLeg` when the current leg has no next waypoint, otherwise advances
within the current leg.  On an empty leg collection the `currentLeg` getter
throws before any state is mutated, so the state is returned unchanged. -/
def RouteModel.skipToNextWaypoint (r : RouteModel) : RouteModel :=
  match r._legCollection with
  | [] => r
  | cur :: rest =>
    if cur.hasNextWaypoint then
      { r with _legCollection := cur.skipToNextWaypoint :: rest }
    else r.skipToNextLeg

/-- The `skipToWaypointName` method (transcribed).  The two inner `(false, _)`
fallbacks correspond to states the source cannot reach: once `hasWaypoint`
holds, the collection is nonempty and contains a matching leg. -/
def RouteModel.skipToWaypointName (r : RouteModel) (waypointName : Str) :
    Bool × RouteModel :=
  if r.hasWaypoint waypointName then
    match r._legCollection with
    | [] => (false, r)
    | cur :: rest =>
      let col1 :=
        if cur.hasWaypoint waypointName then
          (cur.skipToWaypoint waypointName).2 :: rest
        else cur :: rest
      let legIndex := col1.findIdx (fun legModel => legModel.hasWaypoint waypointName)
      let moved := col1.take legIndex
      match col1.drop legIndex with
      | [] =>
        (false, { _legCollection := []
                  _previousLegCollection := r._previousLegCollection ++ moved })
      | cur2 :: rest2 =>
        let res := cur2.skipToWaypoint waypointName
        (res.1, { _legCollection := res.2 :: rest2
                  _previousLegCollection := r._previousLegCollection ++ moved })
  else (false, r)

/-- The `replaceArrivalProcedure` method (transcribed).  Leg construction
against the navigation library is not among the sources, so the operation is
parametric in a constructor `mkLeg` returning `none` exactly when
`new LegModel(...)` would throw. -/
def RouteModel.replaceArrivalProcedure (mkLeg : Str → Option LegModel)
    (r : RouteModel) (routeString : Str) : Bool × RouteModel :=
  match mkLeg routeString with
  | none => (false, r)
  | some starLegModel =>
    match r._legCollection.findIdx? (fun legModel => legModel.isStarLeg) with
    | none =>
      (true, { r with _legCollection := r._legCollection ++ [starLegModel] })
    | some starLegIndex =>
      (true, { r with
        _legCollection := r._legCollection.set starLegIndex starLegModel })

/-- The `replaceDepartureProcedure` method (transcribed), dual to the arrival
variant: a missing SID leg makes the new leg the first leg. -/
def RouteModel.replaceDepartureProcedure (mkLeg : Str → Option LegModel)
    (r : RouteModel) (routeString : Str) : Bool × RouteModel :=
  match mkLeg routeString with
  | none => (false, r)
  | some sidLegModel =>
    match r._legCollection.findIdx? (fun legModel => legModel.isSidLeg) with
    | none =>
      (true, { r with _legCollection := sidLegModel :: r._legCollection })
    | some sidLegIndex =>
      (true, { r with
        _legCollection := r._legCollection.set sidLegIndex sidLegModel })

/-- A JavaScript number as produced by `Math.min`/`Math.max` over integer
inputs: an integer or one of the two infinities. -/
inductive JsNum where
  | negInf
  | num (n : Int)
  | posInf
deriving DecidableEq, Repr

/-- JavaScript `Math.min` over a spread list of integers: `Infinity` on no
arguments. -/
def jsMathMin : List Int → JsNum
  | [] => JsNum.posInf
  | a :: rest => JsNum.num (rest.foldl min a)

/-- JavaScript `Math.max` over a spread list of integers: `-Infinity` on no
arguments. -/
def jsMathMax : List Int → JsNum
  | [] => JsNum.negInf
  | a :: rest => JsNum.num (rest.foldl max a)

/-- Lodash `_without`: removes every occurrence of the given value. -/
def jsWithout (l : List Int) (x : Int) : List Int :=
  l.filter (fun v => v != x)

/-- The `getBottomAltitude` method (transcribed): the bottom altitudes of the
remaining legs, with the sentinel `INVALID_NUMBER` removed, spread into
`Math.min`. -/
def RouteModel.getBottomAltitude (r : RouteModel) : JsNum :=
  let minAltitudeFromLegs :=
    jsWithout
      (r._legCollection.map (fun legModel => legModel.procedureBottomAltitude))
      INVALID_NUMBER
  jsMathMin minAltitudeFromLegs

/-- The property access `this.legCollection` appearing in the
`getTopAltitude` body (transcribed): the class declares `_legCollection` and
no property or getter named `legCollection`, so the access yields
`undefined`, embedded as `none`. -/
def RouteModel.legCollectionLookup (_r : RouteModel) : Option (List LegModel) :=
  none

/-- Lodash `_map` over a possibly undefined collection: lodash returns the
empty array when the collection is nil. -/
def jsMapCollection (coll : Option (List α)) (f : α → β) : List β :=
  match coll with
  | none => []
  | some l => l.map f

/-- The `getTopAltitude` method (transcribed): it maps over
`this.legCollection`, which is `undefined`, and spreads the result into
`Math.max`; no sentinel exclusion is applied. -/
def RouteModel.getTopAltitude (r : RouteModel) : JsNum :=
  jsMathMax
    (jsMapCollection r.legCollectionLookup
      (fun legModel => legModel.procedureTopAltitude))

/-- The dynamic argument passed to `_divideRouteStringIntoSegments`: either a
JavaScript string or a value of some other runtime type (the code guards with
a `typeof` check). -/
inductive RouteStringInput where
  | str (s : Str)
  | nonString
deriving DecidableEq, Repr

/-- The inner `for` loop of `_divideRouteStringIntoSegments` (transcribed):
starting from the first segment, every later token group is emitted as the
exit of the previous group, the divider, and the joined group. -/
def divideChunkLoop (previousSegment : List Str) :
    List (List Str) → List Str
  | [] => []
  | g :: gs =>
    (jsLast previousSegment ++
        PROCEDURE_OR_AIRWAY_SEGMENT_DIVIDER ::
          joinSep PROCEDURE_OR_AIRWAY_SEGMENT_DIVIDER g) ::
      divideChunkLoop g gs

/-- The body of the outer loop of `_divideRouteStringIntoSegments`
(transcribed): one chained route string is split on the procedure divider,
the first three tokens are spliced off as the first segment, the remaining
tokens are chunked in twos, and the segment strings are emitted. -/
def divideChunk (chainedRouteString : Str) : List Str :=
  let elementsInChain :=
    List.splitOn PROCEDURE_OR_AIRWAY_SEGMENT_DIVIDER chainedRouteString
  let firstSegment := elementsInChain.take 3
  let laterGroups := chunkPairs (elementsInChain.drop 3)
  joinSep PROCEDURE_OR_AIRWAY_SEGMENT_DIVIDER firstSegment ::
    divideChunkLoop firstSegment laterGroups

/-- The `_divideRouteStringIntoSegments` method (transcribed): it throws on a
non-string argument and on a string containing the space character, and
otherwise splits on the direct-segment divider and segments each chunk. -/
def _divideRouteStringIntoSegments : RouteStringInput → Option (List Str)
  | RouteStringInput.nonString => none
  | RouteStringInput.str routeString =>
    if routeString.contains ' ' then none
    else
      some (((List.splitOn DIRECT_SEGMENT_DIVIDER routeString).map
        divideChunk).flatten)

/-- The `for` loop of `_calculateRouteStringForLegs` (transcribed): `done`
holds the completed direct route segments, `cur` the segment currently being
extended (the last element of the source's array), and `prev` the previous
original leg route string. -/
def calcLoop (done : List Str) (cur prev : Str) : List Str → List Str
  | [] => done ++ [cur]
  | leg :: rest =>
    let exitOfPreviousLeg :=
      jsLast (List.splitOn PROCEDURE_OR_AIRWAY_SEGMENT_DIVIDER prev)
    let legEntry :=
      jsFirst (List.splitOn PROCEDURE_OR_AIRWAY_SEGMENT_DIVIDER leg)
    if legEntry = exitOfPreviousLeg then
      calcLoop done (cur ++ replaceFirst legEntry leg) leg rest
    else calcLoop (done ++ [cur]) leg leg rest

/-- The string part of `_calculateRouteStringForLegs` (transcribed): the
first leg route string seeds the direct segments, the loop merges or appends
the later ones, and the result is joined on the direct-segment divider.  On
an empty collection the source joins `[undefined]`, which JavaScript renders
as the empty string. -/
def calcRouteString : List Str → Str
  | [] => []
  | first :: rest => joinSep DIRECT_SEGMENT_DIVIDER (calcLoop [] first first rest)

/-- The `_calculateRouteStringForLegs` method (transcribed): maps the legs to
their route strings and reassembles. -/
def _calculateRouteStringForLegs (legCollection : List LegModel) : Str :=
  calcRouteString (legCollection.map (fun legModel => legModel.routeString))

/-- Construction of one leg per segment string, in order; a construction
failure anywhere aborts the whole list, matching exception propagation out
of the source's map. -/
def legsFromSegments (mkLeg : Str → Option LegModel) :
    List Str → Option (List LegModel)
  | [] => some []
  | seg :: rest =>
    match mkLeg seg, legsFromSegments mkLeg rest with
    | some leg, some legs => some (leg :: legs)
    | _, _ => none

/-- The `_generateLegsFromRouteString` method (transcribed): divides the
route string and constructs one leg per segment; a failure of either step
propagates. -/
def _generateLegsFromRouteString (mkLeg : Str → Option LegModel)
    (routeString : RouteStringInput) : Option (List LegModel) :=
  match _divideRouteStringIntoSegments routeString with
  | none => none
  | some segments => legsFromSegments mkLeg segments

/-- The `init` method together with `_verifyRouteContainsMultipleWaypoints`
(transcribed): the legs are generated from the route string and construction
fails unless the legs collectively hold at least two waypoints. -/
def RouteModel.init (mkLeg : Str → Option LegModel)
    (routeString : RouteStringInput) : Option RouteModel :=
  match _generateLegsFromRouteString mkLeg routeString with
  | none => none
  | some legs =>
    let r : RouteModel := { _legCollection := legs, _previousLegCollection := [] }
    if r.waypoints.length < 2 then none else some r

/-- A waypoint with the given identifier and all other fields at their
constructor defaults. -/
def mkDemoWaypoint (n : Str) : WaypointModel :=
  { waypointDefaults with _name := n }

/-- A plain leg fixture: built from the given segment string, holding one
waypoint per listed name, unclassified, without altitude data. -/
def mkDemoLeg (rs : Str) (wpNames : List Str) : LegModel where
  routeString := rs
  previousWaypoints := []
  waypoints := wpNames.map mkDemoWaypoint
  isSidLeg := false
  isStarLeg := false
  procedureBottomAltitude := -1
  procedureTopAltitude := -1

/-- A leg constructor fixture for the navigation-library parameter: every
segment resolves to a one-waypoint leg named after the whole segment. -/
def demoMkLeg (rs : Str) : Option LegModel :=
  some (mkDemoLeg rs [rs])

/-- Auxiliary facts about `List.findIdx?` with an explicit start index. -/
theorem findIdxQ_none (p : α → Bool) :
    ∀ (l : List α) (i : Nat), (∀ x ∈ l, p x = false) →
      List.findIdx? p l i = none := by
  intro l
  induction l with
  | nil => intro i _; simp
  | cons a t ih =>
    intro i h
    rw [List.findIdx?_cons, h a (by simp), ih (i + 1) (fun x hx => h x (by simp [hx]))]
    simp

/-- Companion fact: `List.findIdx?` returns the first satisfying index,
shifted by the start index. -/
theorem findIdxQ_at (p : α → Bool) :
    ∀ (l : List α) (k : Nat) (hk : k < l.length),
      p (l.get ⟨k, hk⟩) = true →
      (∀ j (hj : j < k), p (l.get ⟨j, Nat.lt_trans hj hk⟩) = false) →
      ∀ i, List.findIdx? p l i = some (i + k) := by
  intro l
  induction l with
  | nil => intro k hk; exact absurd hk (by simp)
  | cons a t ih =>
    intro k hk hpk hbefore i
    match k with
    | 0 =>
      rw [List.findIdx?_cons]
      simp only [List.get] at hpk
      simp [hpk]
    | Nat.succ k2 =>
      have ha : p a = false := hbefore 0 (Nat.succ_pos k2)
      rw [List.findIdx?_cons, ha]
      simp only [Bool.false_eq_true, if_false]
      have hk2 : k2 < t.length := Nat.lt_of_succ_lt_succ hk
      have := ih k2 hk2 hpk
        (fun j hj => hbefore (j + 1) (Nat.succ_lt_succ hj)) (i + 1)
      rw [this]
      congr 1
      omega

/-- C4: the procedure-replacement operations.  When leg construction fails
they return false and leave both leg sequences untouched.  When it succeeds
they return true and either replace the first SID/STAR leg in place at its
index, or, with no such leg present, prepend (departure) or append (arrival)
the new leg. -/
theorem replaceProcedure_spec (mkLeg : Str → Option LegModel)
    (r : RouteModel) (s : Str) :
    (mkLeg s = none →
      RouteModel.replaceArrivalProcedure mkLeg r s = (false, r) ∧
        RouteModel.replaceDepartureProcedure mkLeg r s = (false, r)) ∧
    (∀ leg, mkLeg s = some leg →
      ((∀ l ∈ r._legCollection, l.isStarLeg = false) →
        RouteModel.replaceArrivalProcedure mkLeg r s =
          (true, { r with _legCollection := r._legCollection ++ [leg] })) ∧
      (∀ i (hi : i < r._legCollection.length),
        (r._legCollection.get ⟨i, hi⟩).isStarLeg = true →
        (∀ j (hj : j < i),
          (r._legCollection.get ⟨j, Nat.lt_trans hj hi⟩).isStarLeg = false) →
        RouteModel.replaceArrivalProcedure mkLeg r s =
          (true, { r with _legCollection := r._legCollection.set i leg })) ∧
      ((∀ l ∈ r._legCollection, l.isSidLeg = false) →
        RouteModel.replaceDepartureProcedure mkLeg r s =
          (true, { r with _legCollection := leg :: r._legCollection })) ∧
      (∀ i (hi : i < r._legCollection.length),
        (r._legCollection.get ⟨i, hi⟩).isSidLeg = true →
        (∀ j (hj : j < i),
          (r._legCollection.get ⟨j, Nat.lt_trans hj hi⟩).isSidLeg = false) →
        RouteModel.replaceDepartureProcedure mkLeg r s =
          (true, { r with _legCollection := r._legCollection.set i leg }))) := by
  constructor
  · intro hfail
    constructor
    · simp [RouteModel.replaceArrivalProcedure, hfail]
    · simp [RouteModel.replaceDepartureProcedure, hfail]
  · intro leg hleg
    refine ⟨?_, ?_, ?_, ?_⟩
    · intro hnone
      have := findIdxQ_none (fun legModel => legModel.isStarLeg)
        r._legCollection 0 (fun x hx => hnone x hx)
      simp [RouteModel.replaceArrivalProcedure, hleg, this]
    · intro i hi hstar hbefore
      have := findIdxQ_at (fun legModel => legModel.isStarLeg)
        r._legCollection i hi hstar hbefore 0
      simp only [Nat.zero_add] at this
      simp [RouteModel.replaceArrivalProcedure, hleg, this]
    · intro hnone
      have := findIdxQ_none (fun legModel => legModel.isSidLeg)
        r._legCollection 0 (fun x hx => hnone x hx)
      simp [RouteModel.replaceDepartureProcedure, hleg, this]
    · intro i hi hsid hbefore
      have := findIdxQ_at (fun legModel => legModel.isSidLeg)
        r._legCollection i hi hsid hbefore 0
      simp only [Nat.zero_add] at this
      simp [RouteModel.replaceDepartureProcedure, hleg, this]

/-- A route fixture with two plain (unclassified) remaining legs. -/
def demoBaseRoute : RouteModel where
  _legCollection := [mkDemoLeg (S "DAG") [S "dag"], mkDemoLeg (S "TNP") [S "tnp"]]
  _previousLegCollection := []

/-- The STAR leg produced by the STAR-leg constructor fixture for the KEPEC3
arrival segment. -/
def demoNewStarLeg : LegModel :=
  { mkDemoLeg (S "TNP.KEPEC3.KLAS07R") [S "TNP.KEPEC3.KLAS07R"] with
    isStarLeg := true }

/-- A leg constructor fixture resolving every segment to a one-waypoint STAR
leg. -/
def demoMkStarLeg (rs : Str) : Option LegModel :=
  some { mkDemoLeg rs [rs] with isStarLeg := true }

/-- A route fixture whose first remaining leg is a STAR leg. -/
def demoStarFirstRoute : RouteModel where
  _legCollection :=
    [{ mkDemoLeg (S "TNP.GRNPA1.KLAS07R") [S "TNP.GRNPA1.KLAS07R"] with
        isStarLeg := true },
     mkDemoLeg (S "KLAS") [S "klas"]]
  _previousLegCollection := []

/-- C4 witness: a failing constructor leaves the route untouched and reports
false; with no STAR leg present the new arrival leg is appended; with a STAR
leg present (here at position zero) it is replaced in place. -/
theorem replaceProcedure_spec_witness :
    RouteModel.replaceArrivalProcedure (fun _ => none) demoBaseRoute (S "X") =
      (false, demoBaseRoute) ∧
    RouteModel.replaceArrivalProcedure demoMkStarLeg demoBaseRoute
        (S "TNP.KEPEC3.KLAS07R") =
      (true, { demoBaseRoute with
        _legCollection := demoBaseRoute._legCollection ++ [demoNewStarLeg] }) ∧
    RouteModel.replaceArrivalProcedure demoMkStarLeg demoStarFirstRoute
        (S "TNP.KEPEC3.KLAS07R") =
      (true, { demoStarFirstRoute with
        _legCollection := demoStarFirstRoute._legCollection.set 0 demoNewStarLeg }) :=
  ⟨((replaceProcedure_spec (fun _ => none) demoBaseRoute (S "X")).1 rfl).1,
   ((replaceProcedure_spec demoMkStarLeg demoBaseRoute
        (S "TNP.KEPEC3.KLAS07R")).2 demoNewStarLeg rfl).1 (by decide),
   (((replaceProcedure_spec demoMkStarLeg demoStarFirstRoute
        (S "TNP.KEPEC3.KLAS07R")).2 demoNewStarLeg rfl).2.1) 0 (by decide)
     (by decide) (fun j hj => absurd hj (Nat.not_lt_zero j))⟩

/-- C5: a route whose leg expansion yields fewer than two waypoints cannot be
constructed: `init` fails.  Conversely, every successfully constructed route
holds at least two waypoints. -/
theorem init_fails_below_two_waypoints (mkLeg : Str → Option LegModel)
    (input : RouteStringInput) :
    (∀ segs legs, _divideRouteStringIntoSegments input = some segs →
      legsFromSegments mkLeg segs = some legs →
      ((legs.map (fun legModel => legModel.waypoints)).flatten).length < 2 →
      RouteModel.init mkLeg input = none) ∧
    (∀ r, RouteModel.init mkLeg input = some r → 2 ≤ r.waypoints.length) := by
  constructor
  · intro segs legs hdiv hlegs hlt
    simp only [RouteModel.init, _generateLegsFromRouteString, hdiv, hlegs,
      RouteModel.waypoints]
    rw [if_pos hlt]
  · intro r hr
    cases hdiv : _divideRouteStringIntoSegments input with
    | none => simp [RouteModel.init, _generateLegsFromRouteString, hdiv] at hr
    | some segments =>
      cases hlegs : legsFromSegments mkLeg segments with
      | none =>
        simp [RouteModel.init, _generateLegsFromRouteString, hdiv, hlegs] at hr
      | some legs =>
        simp only [RouteModel.init, _generateLegsFromRouteString, hdiv, hlegs,
          RouteModel.waypoints] at hr
        split at hr
        · exact absurd hr (by simp)
        next hge =>
          cases hr
          simp only [RouteModel.waypoints]
          omega

/-- C5 witness: the single-fix route string COWBY expands (through a
navigation fixture resolving each segment to a one-waypoint leg) to a single
waypoint, and route construction fails on it. -/
theorem init_fails_below_two_waypoints_witness :
    RouteModel.init demoMkLeg (RouteStringInput.str (S "COWBY")) = none ∧
      _divideRouteStringIntoSegments (RouteStringInput.str (S "COWBY")) =
        some [S "COWBY"] :=
  ⟨(init_fails_below_two_waypoints demoMkLeg
      (RouteStringInput.str (S "COWBY"))).1
    [S "COWBY"] [mkDemoLeg (S "COWBY") [S "COWBY"]]
    (by decide) (by decide) (by decide), by decide⟩

/-- A route fixture with three remaining legs carrying procedure altitude
data: bottoms 5000, sentinel, 7000 and tops 19000, 8000, sentinel. -/
def demoAltitudeRoute : RouteModel where
  _legCollection :=
    [{ mkDemoLeg (S "KLAS07R.BOACH6.TNP") [S "jesji", S "bakrr"] with
        procedureBottomAltitude := 5000, procedureTopAltitude := 19000 },
     { mkDemoLeg (S "TNP.J86.IPL") [S "clarr"] with
        procedureBottomAltitude := -1, procedureTopAltitude := 8000 },
     { mkDemoLeg (S "IPL") [S "ipl"] with
        procedureBottomAltitude := 7000, procedureTopAltitude := -1 }]
  _previousLegCollection := []

/-- C6: `getBottomAltitude` does take the minimum of the legs' bottom
altitudes with the sentinel excluded, but `getTopAltitude` reads the
undefined property `this.legCollection` (the field is `_legCollection`), so
it maps over `undefined`, spreads an empty list into `Math.max`, and returns
negative infinity on every route; on the altitude fixture the intended
sentinel-excluding maximum would be 19000. -/
theorem getTopAltitude_always_negInf :
    (∀ r : RouteModel, r.getTopAltitude = JsNum.negInf) ∧
      demoAltitudeRoute.getTopAltitude = JsNum.negInf ∧
      jsMathMax (jsWithout (demoAltitudeRoute._legCollection.map
        (fun legModel => legModel.procedureTopAltitude)) INVALID_NUMBER) =
        JsNum.num 19000 ∧
      demoAltitudeRoute.getBottomAltitude = JsNum.num 5000 :=
  ⟨fun _ => rfl, rfl, by decide, by decide⟩

/-- An in-flight navigation step: one of the two skip-ahead operations. -/
inductive SkipOp where
  | nextWaypoint
  | nextLeg
deriving DecidableEq, Repr

/-- Application of a single skip operation to a route. -/
def applySkipOp (r : RouteModel) : SkipOp → RouteModel
  | SkipOp.nextWaypoint => r.skipToNextWaypoint
  | SkipOp.nextLeg => r.skipToNextLeg

/-- Application of a finite sequence of skip operations, in order. -/
def applySkipOps (r : RouteModel) (ops : List SkipOp) : RouteModel :=
  ops.foldl applySkipOp r

/-- Waypoints held by a leg, flown and remaining together. -/
def LegModel.totalWaypointCount (leg : LegModel) : Nat :=
  leg.previousWaypoints.length + leg.waypoints.length

/-- Waypoints held by a route across the flown and remaining leg sequences,
counting each leg's flown and remaining waypoints. -/
def RouteModel.totalWaypointCount (r : RouteModel) : Nat :=
  ((r._previousLegCollection ++ r._legCollection).map
    LegModel.totalWaypointCount).sum

/-- Advancing within a leg moves one waypoint between the leg's two
sequences: the leg's waypoint count and route string are unchanged. -/
theorem LegModel.skipToNextWaypoint_pres (leg : LegModel) :
    leg.skipToNextWaypoint.totalWaypointCount = leg.totalWaypointCount ∧
      leg.skipToNextWaypoint.routeString = leg.routeString := by
  cases h : leg.waypoints with
  | nil => simp [LegModel.skipToNextWaypoint, h]
  | cons w rest =>
    constructor
    · simp [LegModel.skipToNextWaypoint, h, LegModel.totalWaypointCount]
      omega
    · simp [LegModel.skipToNextWaypoint, h]

/-- One `skipToNextLeg` step conserves the total waypoint count and moves at
most a prefix of the remaining legs onto the flown sequence. -/
theorem skipToNextLeg_step (r : RouteModel) :
    (r.skipToNextLeg).totalWaypointCount = r.totalWaypointCount ∧
      ∃ j,
        (r.skipToNextLeg)._previousLegCollection.map
            (fun legModel => legModel.routeString) =
          r._previousLegCollection.map (fun legModel => legModel.routeString) ++
            (r._legCollection.map (fun legModel => legModel.routeString)).take j ∧
        (r.skipToNextLeg)._legCollection.map
            (fun legModel => legModel.routeString) =
          (r._legCollection.map (fun legModel => legModel.routeString)).drop j := by
  unfold RouteModel.skipToNextLeg
  split
  · constructor
    · unfold RouteModel.totalWaypointCount
      simp only []
      rw [List.append_assoc, List.take_append_drop]
    · refine ⟨1, ?_, ?_⟩
      · simp [List.map_take]
      · simp [List.map_drop]
  · exact ⟨rfl, 0, by simp, by simp⟩

/-- One `skipToNextWaypoint` step conserves the total waypoint count and
moves at most a prefix of the remaining legs onto the flown sequence. -/
theorem skipToNextWaypoint_step (r : RouteModel) :
    (r.skipToNextWaypoint).totalWaypointCount = r.totalWaypointCount ∧
      ∃ j,
        (r.skipToNextWaypoint)._previousLegCollection.map
            (fun legModel => legModel.routeString) =
          r._previousLegCollection.map (fun legModel => legModel.routeString) ++
            (r._legCollection.map (fun legModel => legModel.routeString)).take j ∧
        (r.skipToNextWaypoint)._legCollection.map
            (fun legModel => legModel.routeString) =
          (r._legCollection.map (fun legModel => legModel.routeString)).drop j := by
  cases hcol : r._legCollection with
  | nil =>
    have hid : r.skipToNextWaypoint = r := by
      unfold RouteModel.skipToNextWaypoint
      rw [hcol]
    rw [hid]
    exact ⟨rfl, 0, by simp [hcol], by simp [hcol]⟩
  | cons cur rest =>
    have hred : r.skipToNextWaypoint =
        if cur.hasNextWaypoint then
          { r with _legCollection := cur.skipToNextWaypoint :: rest }
        else r.skipToNextLeg := by
      unfold RouteModel.skipToNextWaypoint
      rw [hcol]
    by_cases hnext : cur.hasNextWaypoint
    · rw [hred, if_pos hnext]
      refine ⟨?_, 0, by simp, ?_⟩
      · unfold RouteModel.totalWaypointCount
        simp [hcol, (LegModel.skipToNextWaypoint_pres cur).1]
      · simp [hcol, (LegModel.skipToNextWaypoint_pres cur).2]
    · rw [hred, if_neg hnext, ← hcol]
      exact skipToNextLeg_step r

/-- One step of either skip operation conserves the total waypoint count and
moves at most a prefix of the remaining legs onto the flown sequence. -/
theorem applySkipOp_step (r : RouteModel) (op : SkipOp) :
    (applySkipOp r op).totalWaypointCount = r.totalWaypointCount ∧
      ∃ j,
        (applySkipOp r op)._previousLegCollection.map
            (fun legModel => legModel.routeString) =
          r._previousLegCollection.map (fun legModel => legModel.routeString) ++
            (r._legCollection.map (fun legModel => legModel.routeString)).take j ∧
        (applySkipOp r op)._legCollection.map
            (fun legModel => legModel.routeString) =
          (r._legCollection.map (fun legModel => legModel.routeString)).drop j := by
  cases op with
  | nextWaypoint => exact skipToNextWaypoint_step r
  | nextLeg => exact skipToNextLeg_step r

/-- C8: any finite sequence of `skipToNextWaypoint` and `skipToNextLeg`
operations conserves the total waypoint count across the flown and remaining
leg sequences, and the flown sequence grows exactly by a prefix of the
original remaining-leg order (so on a fresh route the flown legs are
precisely a prefix of the original remaining order). -/
theorem skip_ops_conserve (ops : List SkipOp) (r : RouteModel) :
    (applySkipOps r ops).totalWaypointCount = r.totalWaypointCount ∧
      ∃ k,
        (applySkipOps r ops)._previousLegCollection.map
            (fun legModel => legModel.routeString) =
          r._previousLegCollection.map (fun legModel => legModel.routeString) ++
            (r._legCollection.map (fun legModel => legModel.routeString)).take k ∧
        (applySkipOps r ops)._legCollection.map
            (fun legModel => legModel.routeString) =
          (r._legCollection.map (fun legModel => legModel.routeString)).drop k := by
  induction ops generalizing r with
  | nil => exact ⟨rfl, 0, by simp [applySkipOps], by simp [applySkipOps]⟩
  | cons op rest ih =>
    have hstep := applySkipOp_step r op
    obtain ⟨hcnt1, j, hp1, hl1⟩ := hstep
    obtain ⟨hcnt2, k2, hp2, hl2⟩ := ih (applySkipOp r op)
    have hfold : applySkipOps r (op :: rest) = applySkipOps (applySkipOp r op) rest := rfl
    rw [hfold]
    refine ⟨hcnt2.trans hcnt1, j + k2, ?_, ?_⟩
    · rw [hp2, hp1, hl1, List.append_assoc, ← List.take_add]
    · rw [hl2, hl1, List.drop_drop]

/-- The waypoint scan returns `none` exactly when no remaining waypoint
carries the searched name. -/
theorem skipToWaypointAux_none (n : Str) :
    ∀ (wps : List WaypointModel) (flown : List WaypointModel),
      LegModel.skipToWaypointAux n flown wps = none ↔
        wps.any (fun w => w.name == n) = false := by
  intro wps
  induction wps with
  | nil => intro flown; simp [LegModel.skipToWaypointAux]
  | cons w rest ih =>
    intro flown
    by_cases hw : (w.name == n) = true
    · simp [LegModel.skipToWaypointAux, hw]
    · have hw2 : (w.name == n) = false := by
        cases hb : w.name == n
        · rfl
        · exact absurd hb hw
      simp [LegModel.skipToWaypointAux, hw2, ih]

/-- A successful waypoint scan leaves the matching waypoint at the head of
the remaining sequence. -/
theorem skipToWaypointAux_some (n : Str) :
    ∀ (wps : List WaypointModel) (flown fl rem : List WaypointModel),
      LegModel.skipToWaypointAux n flown wps = some (fl, rem) →
      ∃ w rest2, rem = w :: rest2 ∧ (w.name == n) = true := by
  intro wps
  induction wps with
  | nil => intro flown fl rem hx; exact absurd hx (by simp [LegModel.skipToWaypointAux])
  | cons w rest ih =>
    intro flown fl rem hx
    by_cases hw : (w.name == n) = true
    · rw [LegModel.skipToWaypointAux, if_pos hw] at hx
      cases hx
      exact ⟨w, rest, rfl, hw⟩
    · rw [LegModel.skipToWaypointAux, if_neg hw] at hx
      exact ih (flown ++ [w]) fl rem hx

/-- On a leg that contains the named waypoint, `skipToWaypoint` succeeds,
keeps the waypoint available (so a second call is the identity), and leaves
the leg's route string unchanged. -/
theorem skipToWaypoint_found (leg : LegModel) (n : Str)
    (h : leg.hasWaypoint n = true) :
    (leg.skipToWaypoint n).1 = true ∧
      ((leg.skipToWaypoint n).2).hasWaypoint n = true ∧
      (leg.skipToWaypoint n).2.skipToWaypoint n = (true, (leg.skipToWaypoint n).2) ∧
      (leg.skipToWaypoint n).2.routeString = leg.routeString := by
  unfold LegModel.hasWaypoint at h
  cases haux : LegModel.skipToWaypointAux n leg.previousWaypoints leg.waypoints with
  | none =>
    rw [skipToWaypointAux_none n leg.waypoints leg.previousWaypoints] at haux
    rw [h] at haux
    cases haux
  | some pr =>
    obtain ⟨fl, rem⟩ := pr
    obtain ⟨w, rest2, hrem, hw⟩ := skipToWaypointAux_some n leg.waypoints
      leg.previousWaypoints fl rem haux
    have hres : leg.skipToWaypoint n =
        (true, { leg with previousWaypoints := fl, waypoints := rem }) := by
      unfold LegModel.skipToWaypoint
      rw [haux]
    have haux2 : LegModel.skipToWaypointAux n fl rem = some (fl, rem) := by
      rw [hrem, LegModel.skipToWaypointAux, if_pos hw]
    refine ⟨by rw [hres], ?_, ?_, by rw [hres]⟩
    · rw [hres]
      simp [LegModel.hasWaypoint, hrem, hw]
    · rw [hres]
      unfold LegModel.skipToWaypoint
      simp only [haux2]

/-- The first index found by `List.findIdx` on a list with a match is a
valid position whose element satisfies the predicate. -/
theorem findIdx_drop_cons (p : α → Bool) :
    ∀ (l : List α), l.any p = true →
      ∃ x rest2, l.drop (l.findIdx p) = x :: rest2 ∧ p x = true := by
  intro l
  induction l with
  | nil => simp
  | cons a t ih =>
    intro h
    by_cases ha : p a = true
    · exact ⟨a, t, by simp [List.findIdx_cons, ha], ha⟩
    · have ha2 : p a = false := by
        cases hb : p a
        · rfl
        · exact absurd hb ha
      have h2 : t.any p = true := by simpa [ha2] using h
      obtain ⟨x, r2, hd, hx⟩ := ih h2
      refine ⟨x, r2, ?_, hx⟩
      rw [List.findIdx_cons, ha2]
      simpa using hd

/-- C3: `skipToWaypointName` fails and leaves the route unchanged when no
remaining leg holds the named waypoint; otherwise it moves every leg before
the first matching leg onto the flown sequence in order, advances the
matching leg's cursor to the named waypoint via `skipToWaypoint` (which
succeeds), leaves the legs after it untouched, and returns true. -/
theorem skipToWaypointName_spec (r : RouteModel) (n : Str) :
    (r.hasWaypoint n = false → r.skipToWaypointName n = (false, r)) ∧
    (r.hasWaypoint n = true →
      ∃ cur2 rest2,
        r._legCollection.drop
            (r._legCollection.findIdx (fun legModel => legModel.hasWaypoint n)) =
          cur2 :: rest2 ∧
        (cur2.skipToWaypoint n).1 = true ∧
        r.skipToWaypointName n =
          (true,
            { _legCollection := (cur2.skipToWaypoint n).2 :: rest2
              _previousLegCollection := r._previousLegCollection ++
                r._legCollection.take
                  (r._legCollection.findIdx
                    (fun legModel => legModel.hasWaypoint n)) })) := by
  constructor
  · intro h
    simp [RouteModel.skipToWaypointName, h]
  · intro h
    cases hcol : r._legCollection with
    | nil =>
      have : r.hasWaypoint n = false := by
        simp [RouteModel.hasWaypoint, hcol]
      rw [h] at this
      cases this
    | cons cur rest =>
      have hany : (cur :: rest).any (fun legModel => legModel.hasWaypoint n) = true := by
        have := h
        rw [RouteModel.hasWaypoint, hcol] at this
        exact this
      by_cases hcur : cur.hasWaypoint n = true
      · obtain ⟨hret, hhas2, hidem, _⟩ := skipToWaypoint_found cur n hcur
        have horigidx :
            List.findIdx (fun legModel => legModel.hasWaypoint n) (cur :: rest) = 0 := by
          simp [List.findIdx_cons, hcur]
        have hcol1idx :
            List.findIdx (fun legModel => legModel.hasWaypoint n)
              ((cur.skipToWaypoint n).2 :: rest) = 0 := by
          simp [List.findIdx_cons, hhas2]
        refine ⟨cur, rest, by simp [hcol, horigidx], hret, ?_⟩
        unfold RouteModel.skipToWaypointName
        rw [if_pos h, hcol]
        simp only [hcur, if_true, hcol1idx, List.take_zero, List.drop_zero]
        simp [hidem, hcol, horigidx]
      · have hcur2 : cur.hasWaypoint n = false := by
          cases hb : cur.hasWaypoint n
          · rfl
          · exact absurd hb hcur
        obtain ⟨cur2, rest2, hdrop, hp2⟩ :=
          findIdx_drop_cons (fun legModel => legModel.hasWaypoint n)
            (cur :: rest) hany
        obtain ⟨hret2, _, _, _⟩ := skipToWaypoint_found cur2 n hp2
        refine ⟨cur2, rest2, hdrop, hret2, ?_⟩
        unfold RouteModel.skipToWaypointName
        rw [if_pos h, hcol]
        simp only [hcur2, Bool.false_eq_true, if_false, hdrop]
        simp [hret2, hcol]

/-- First leg of the three-leg skip fixture. -/
def demoSkipLegA : LegModel := mkDemoLeg (S "DAG") [S "dag"]

/-- Second leg of the three-leg skip fixture; it holds the target waypoint. -/
def demoSkipLegB : LegModel := mkDemoLeg (S "DAG.V394.LAS") [S "clarr", S "ipl"]

/-- Third leg of the three-leg skip fixture. -/
def demoSkipLegC : LegModel := mkDemoLeg (S "LAS") [S "las"]

/-- A route fixture with three remaining legs where the waypoint ipl occurs
only in the second leg. -/
def demoSkipRoute : RouteModel where
  _legCollection := [demoSkipLegA, demoSkipLegB, demoSkipLegC]
  _previousLegCollection := []

/-- C3 witness: an absent name returns false and changes nothing; skipping to
ipl moves the first leg into the flown sequence, advances the second leg's
cursor past clarr to ipl, and leaves the third leg untouched. -/
theorem skipToWaypointName_spec_witness :
    demoSkipRoute.skipToWaypointName (S "zzz") = (false, demoSkipRoute) ∧
    demoSkipRoute.skipToWaypointName (S "ipl") =
      (true,
        { _legCollection :=
            [{ demoSkipLegB with
                previousWaypoints := [mkDemoWaypoint (S "clarr")]
                waypoints := [mkDemoWaypoint (S "ipl")] },
             demoSkipLegC]
          _previousLegCollection := [demoSkipLegA] }) := by
  constructor
  · exact (skipToWaypointName_spec demoSkipRoute (S "zzz")).1 (by decide)
  · obtain ⟨cur2, rest2, hdrop, hret, hres⟩ :=
      (skipToWaypointName_spec demoSkipRoute (S "ipl")).2 (by decide)
    have hconcrete :
        demoSkipRoute._legCollection.drop
          (demoSkipRoute._legCollection.findIdx
            (fun legModel => legModel.hasWaypoint (S "ipl"))) =
          [demoSkipLegB, demoSkipLegC] := by decide
    have h3 : cur2 :: rest2 = [demoSkipLegB, demoSkipLegC] :=
      hdrop.symm.trans hconcrete
    injection h3 with h4 h5
    subst h4
    subst h5
    rw [hres]
    decide

/-- C7 counterexample: a route string containing a tab character contains
whitespace, yet segmentation accepts it (the guard checks `indexOf` of the
space character only), and a route can even be constructed from such input. -/
theorem divide_accepts_tab :
    Char.isWhitespace '\t' = true ∧
      (S "DAG\tLAS").contains '\t' = true ∧
      _divideRouteStringIntoSegments (RouteStringInput.str (S "DAG\tLAS")) =
        some [S "DAG\tLAS"] ∧
      (RouteModel.init demoMkLeg
        (RouteStringInput.str (S "DAG\tLAS:IPL"))).isSome = true := by
  refine ⟨rfl, by decide, by decide, by decide⟩

/-- C7 (amended): segmentation fails exactly on a non-string input or a
string containing the space character (other whitespace is not rejected),
and on such input route construction fails entirely, leaving no partial
route. -/
theorem divide_fails_iff :
    _divideRouteStringIntoSegments RouteStringInput.nonString = none ∧
      (∀ s : Str,
        _divideRouteStringIntoSegments (RouteStringInput.str s) = none ↔
          ' ' ∈ s) ∧
      (∀ (mkLeg : Str → Option LegModel) (s : Str), ' ' ∈ s →
        RouteModel.init mkLeg (RouteStringInput.str s) = none) := by
  refine ⟨rfl, ?_, ?_⟩
  · intro s
    by_cases hmem : ' ' ∈ s <;>
      simp [_divideRouteStringIntoSegments, hmem]
  · intro mkLeg s hmem
    simp [RouteModel.init, _generateLegsFromRouteString,
      _divideRouteStringIntoSegments, hmem]

/-- C7 witness: a route string with a space is rejected outright. -/
theorem divide_fails_iff_witness :
    RouteModel.init demoMkLeg (RouteStringInput.str (S "DAG LAS")) = none :=
  divide_fails_iff.2.2 demoMkLeg (S "DAG LAS") (by decide)

/-- Spec-side counterpart for C2, written from the claim's words: within a
chunk, after the first segment each remaining NAME.EXIT pair is emitted as
PREVIOUS_EXIT.NAME.EXIT, the entry fix being the exit fix of the previous
segment. -/
def claimPairsLoop (prevExit : Str) : List Str → List Str
  | n :: e :: rest =>
    (prevExit ++ PROCEDURE_OR_AIRWAY_SEGMENT_DIVIDER ::
        (n ++ PROCEDURE_OR_AIRWAY_SEGMENT_DIVIDER :: e)) ::
      claimPairsLoop e rest
  | _ => []

/-- Spec-side counterpart for C2: a chunk splits on the procedure divider,
its first three tokens form the first leg segment, and the remaining tokens
are grouped two at a time. -/
def claimSegmentsOfChunk (chunk : Str) : List Str :=
  let toks := List.splitOn PROCEDURE_OR_AIRWAY_SEGMENT_DIVIDER chunk
  joinSep PROCEDURE_OR_AIRWAY_SEGMENT_DIVIDER (toks.take 3) ::
    claimPairsLoop (jsLast (toks.take 3)) (toks.drop 3)

/-- Spec-side counterpart for C2: the route string splits on the
direct-segment divider first, then each chunk is segmented. -/
def claimSegments (s : Str) : List Str :=
  ((List.splitOn DIRECT_SEGMENT_DIVIDER s).map claimSegmentsOfChunk).flatten

/-- Joining a two-element list places the separator between the elements. -/
theorem joinSep_pair (c : Char) (a b : Str) : joinSep c [a, b] = a ++ c :: b := by
  simp [joinSep, List.intercalate]

/-- The transcribed inner loop agrees with the claim's pair recursion on
every even-length remainder. -/
theorem divideLoop_agree :
    ∀ (rest : List Str), rest.length % 2 = 0 →
      ∀ (prevGroup : List Str),
        divideChunkLoop prevGroup (chunkPairs rest) =
          claimPairsLoop (jsLast prevGroup) rest
  | [], _, _ => rfl
  | [_], h, _ => by simp at h
  | a :: b :: rest2, h, prevGroup => by
    have h2 : rest2.length % 2 = 0 := by
      simp only [List.length_cons] at h
      omega
    rw [chunkPairs, divideChunkLoop, divideLoop_agree rest2 h2 [a, b],
      claimPairsLoop, joinSep_pair]
    rfl

/-- Each chunk whose token count is at most three or odd is segmented by the
transcribed code exactly as the claim describes. -/
theorem divideChunk_matches_claim (chunk : Str)
    (h : (List.splitOn PROCEDURE_OR_AIRWAY_SEGMENT_DIVIDER chunk).length ≤ 3 ∨
      (List.splitOn PROCEDURE_OR_AIRWAY_SEGMENT_DIVIDER chunk).length % 2 = 1) :
    divideChunk chunk = claimSegmentsOfChunk chunk := by
  simp only [divideChunk, claimSegmentsOfChunk]
  have hlen :
      ((List.splitOn PROCEDURE_OR_AIRWAY_SEGMENT_DIVIDER chunk).drop 3).length % 2
        = 0 := by
    rw [List.length_drop]
    rcases h with h | h <;> omega
  rw [divideLoop_agree _ hlen _]

/-- C2: on every space-free route string whose chunks have at most three or
an odd number of procedure-divider tokens (so the tokens after the first
segment pair up exactly), `_divideRouteStringIntoSegments` produces precisely
the segmentation the claim describes: split on the direct divider first, the
first three tokens of each chunk as the first leg segment, and each later
NAME.EXIT pair emitted as PREVIOUS_EXIT.NAME.EXIT with the entry fix equal to
the previous segment's exit fix. -/
theorem divide_matches_claim_description (s : Str)
    (hs : s.contains ' ' = false)
    (hodd : ∀ chunk ∈ List.splitOn DIRECT_SEGMENT_DIVIDER s,
      (List.splitOn PROCEDURE_OR_AIRWAY_SEGMENT_DIVIDER chunk).length ≤ 3 ∨
      (List.splitOn PROCEDURE_OR_AIRWAY_SEGMENT_DIVIDER chunk).length % 2 = 1) :
    _divideRouteStringIntoSegments (RouteStringInput.str s) =
      some (claimSegments s) := by
  simp only [_divideRouteStringIntoSegments, claimSegments]
  rw [if_neg (by simpa using hs)]
  have hmap : (List.splitOn DIRECT_SEGMENT_DIVIDER s).map divideChunk =
      (List.splitOn DIRECT_SEGMENT_DIVIDER s).map claimSegmentsOfChunk :=
    List.map_congr_left
      (fun c hc => divideChunk_matches_claim c (hodd c hc))
  rw [hmap]

/-- C2 witness: the KSFO28R.OFFSH9.SXC.V458.IPL example, a single chunk of
five tokens, segments into the two claimed leg segments. -/
theorem divide_matches_claim_description_witness :
    _divideRouteStringIntoSegments
        (RouteStringInput.str (S "KSFO28R.OFFSH9.SXC.V458.IPL")) =
      some (claimSegments (S "KSFO28R.OFFSH9.SXC.V458.IPL")) ∧
    claimSegments (S "KSFO28R.OFFSH9.SXC.V458.IPL") =
      [S "KSFO28R.OFFSH9.SXC", S "SXC.V458.IPL"] :=
  ⟨divide_matches_claim_description (S "KSFO28R.OFFSH9.SXC.V458.IPL")
    (by decide) (by decide), by decide⟩

/-- A route-string fix token is well formed when it is nonempty and free of
the two dividers and the space character. -/
def tokenWF (t : Str) : Bool :=
  !t.isEmpty && !t.contains PROCEDURE_OR_AIRWAY_SEGMENT_DIVIDER &&
    !t.contains DIRECT_SEGMENT_DIVIDER && !t.contains ' '

/-- A chunk (maximal run between direct-segment dividers) is well formed when
it has at least one token and all its tokens are well formed. -/
def chunkWF (c : List Str) : Bool := !c.isEmpty && c.all tokenWF

/-- Boundary-distinctness along the chunk list: the final fix of each chunk
differs from the first fix of the following chunk. -/
def chainFrom (prevTok : Str) : List (List Str) → Bool
  | [] => true
  | c :: cs => (prevTok != jsFirst c) && chainFrom (jsLast c) cs

/-- Well-formedness of a whole route as a chunk structure: at least one
chunk, all chunks well formed, and adjacent chunk boundaries distinct. -/
def routeChunksWF : List (List Str) → Bool
  | [] => false
  | c :: cs => (c :: cs).all chunkWF && chainFrom (jsLast c) cs

/-- Rendering of one chunk: its tokens joined on the procedure divider. -/
def renderChunk (c : List Str) : Str :=
  joinSep PROCEDURE_OR_AIRWAY_SEGMENT_DIVIDER c

/-- Rendering of a route: its chunks joined on the direct-segment divider. -/
def renderRoute (chunks : List (List Str)) : Str :=
  joinSep DIRECT_SEGMENT_DIVIDER (chunks.map renderChunk)

/-- The segment list the divide step produces for one chunk, at token level. -/
def chunkSegs (c : List Str) : List Str :=
  joinSep PROCEDURE_OR_AIRWAY_SEGMENT_DIVIDER (c.take 3) ::
    divideChunkLoop (c.take 3) (chunkPairs (c.drop 3))

/-- Divider-prefixed rendering of a token list, the shape in which tokens
after the first are appended to a segment string. -/
def joinTail (d : Char) (ys : List Str) : Str :=
  (ys.map (fun t => d :: t)).flatten

/-- The string contributed by the later token groups of a chunk during the
divide step. -/
def pairsTail (groups : List (List Str)) : Str :=
  (groups.map (fun g => PROCEDURE_OR_AIRWAY_SEGMENT_DIVIDER ::
    joinSep PROCEDURE_OR_AIRWAY_SEGMENT_DIVIDER g)).flatten

/-- Unfolding of a two-or-more-element join. -/
theorem joinSep_cons_cons (d : Char) (a b : Str) (rest : List Str) :
    joinSep d (a :: b :: rest) = a ++ d :: joinSep d (b :: rest) := by
  simp [joinSep, List.intercalate, List.intersperse_cons_cons]

/-- A singleton join is the element itself. -/
theorem joinSep_singleton (d : Char) (a : Str) : joinSep d [a] = a := by
  simp [joinSep, List.intercalate]

/-- A nonempty join is its head followed by the divider-prefixed tail. -/
theorem joinSep_cons_eq_joinTail (d : Char) :
    ∀ (ys : List Str) (a : Str), joinSep d (a :: ys) = a ++ joinTail d ys
  | [], a => by simp [joinSep_singleton, joinTail]
  | b :: t, a => by
    rw [joinSep_cons_cons, joinSep_cons_eq_joinTail d t b]
    simp [joinTail]

/-- The divider-prefixed rendering distributes over append. -/
theorem joinTail_append (d : Char) (xs ys : List Str) :
    joinTail d (xs ++ ys) = joinTail d xs ++ joinTail d ys := by
  simp [joinTail]

/-- Splitting off a nonempty prefix of a join. -/
theorem joinSep_append_join (d : Char) (xs ys : List Str) (hxs : xs ≠ []) :
    joinSep d (xs ++ ys) = joinSep d xs ++ joinTail d ys := by
  cases xs with
  | nil => exact absurd rfl hxs
  | cons x xt =>
    rw [List.cons_append, joinSep_cons_eq_joinTail, joinSep_cons_eq_joinTail,
      joinTail_append]
    simp

/-- Characters of a join come from the divider or from the parts. -/
theorem mem_joinSep (d : Char) (x : Char) :
    ∀ (parts : List Str), x ∈ joinSep d parts →
      x = d ∨ ∃ p ∈ parts, x ∈ p := by
  intro parts
  induction parts with
  | nil => intro hx; simp [joinSep, List.intercalate] at hx
  | cons a rest ih =>
    cases rest with
    | nil =>
      rw [joinSep_singleton]
      intro hx
      exact Or.inr ⟨a, by simp, hx⟩
    | cons b rest2 =>
      rw [joinSep_cons_cons]
      intro hx
      rcases List.mem_append.mp hx with hx | hx
      · exact Or.inr ⟨a, by simp, hx⟩
      · rcases List.mem_cons.mp hx with hx | hx
        · exact Or.inl hx
        · rcases ih hx with hx | ⟨p, hp, hxp⟩
          · exact Or.inl hx
          · exact Or.inr ⟨p, by simp [List.mem_cons.mp hp], hxp⟩

/-- Splitting a string that starts with a divider-free part followed by the
divider peels off that part. -/
theorem splitOn_cons_of_free (d : Char) (a : Str) (ha : d ∉ a) (b : Str) :
    List.splitOn d (a ++ d :: b) = a :: List.splitOn d b := by
  unfold List.splitOn
  refine List.splitOnP_first (· == d) a ?_ d (by simp) b
  intro x hx hbeq
  exact ha (eq_of_beq hbeq ▸ hx)

/-- Splitting is a left inverse of joining for nonempty part lists whose
parts do not contain the divider. -/
theorem splitOn_joinSep (d : Char) :
    ∀ (parts : List Str), parts ≠ [] → (∀ p ∈ parts, d ∉ p) →
      List.splitOn d (joinSep d parts) = parts := by
  intro parts
  induction parts with
  | nil => intro h; exact absurd rfl h
  | cons a rest ih =>
    intro _ hfree
    cases rest with
    | nil =>
      rw [joinSep_singleton]
      unfold List.splitOn
      refine List.splitOnP_eq_single _ _ ?_
      intro x hx hbeq
      exact hfree a (by simp) (eq_of_beq hbeq ▸ hx)
    | cons b rest2 =>
      rw [joinSep_cons_cons,
        splitOn_cons_of_free d a (hfree a (by simp)) (joinSep d (b :: rest2)),
        ih (by simp) (fun p hp => hfree p (by simp [List.mem_cons.mp hp]))]

/-- Head of a nonempty list, for the lodash embedding. -/
theorem jsFirst_cons (a : Str) (l : List Str) : jsFirst (a :: l) = a := rfl

/-- The last element of a list with at least two elements ignores the head. -/
theorem jsLast_cons_cons (a b : Str) (l : List Str) :
    jsLast (a :: b :: l) = jsLast (b :: l) := by
  simp [jsLast, List.getLastD_cons]

/-- The last element of a cons with nonempty tail ignores the head. -/
theorem jsLast_cons_of_ne (a : Str) (l : List Str) (h : l ≠ []) :
    jsLast (a :: l) = jsLast l := by
  cases l with
  | nil => exact absurd rfl h
  | cons b t => exact jsLast_cons_cons a b t

/-- The last element of a nonempty list is a member. -/
theorem jsLast_mem : ∀ (l : List Str), l ≠ [] → jsLast l ∈ l
  | [a], _ => by simp [jsLast]
  | a :: b :: t, _ => by
    rw [jsLast_cons_cons]
    exact List.mem_cons_of_mem a (jsLast_mem (b :: t) (by simp))

/-- The last element of an append with nonempty right part comes from the
right part. -/
theorem jsLast_append_right :
    ∀ (x y : List Str), y ≠ [] → jsLast (x ++ y) = jsLast y
  | [], _, _ => by simp
  | a :: t, y, hy => by
    rw [List.cons_append,
      jsLast_cons_of_ne a (t ++ y) (by simp [hy]),
      jsLast_append_right t y hy]

/-- The head of the first three tokens is the head. -/
theorem jsFirst_take3 (c : List Str) (h : c ≠ []) :
    jsFirst (c.take 3) = jsFirst c := by
  cases c with
  | nil => exact absurd rfl h
  | cons a t => rfl

/-- A list is a prefix of itself extended by anything, in the executable
form used by the replace embedding. -/
theorem isPrefixOf_append_self :
    ∀ (p rest : Str), p.isPrefixOf (p ++ rest) = true
  | [], _ => by simp [List.isPrefixOf]
  | c :: t, rest => by
    simp [List.isPrefixOf, isPrefixOf_append_self t rest]

/-- Replacing the first occurrence of a leading pattern removes exactly that
prefix. -/
theorem replaceFirst_pref (p rest : Str) :
    replaceFirst p (p ++ rest) = rest := by
  rw [replaceFirst.eq_def, if_pos (isPrefixOf_append_self p rest)]
  exact List.drop_left p rest

/-- Pair grouping flattens back to the original list. -/
theorem flatten_chunkPairs : ∀ (l : List α), (chunkPairs l).flatten = l
  | [] => rfl
  | [a] => rfl
  | a :: b :: t => by
    rw [chunkPairs, List.flatten_cons, flatten_chunkPairs t]
    rfl

/-- Pair groups are nonempty and draw their elements from the grouped list. -/
theorem chunkPairs_groups :
    ∀ (l : List α) (g : List α), g ∈ chunkPairs l → g ≠ [] ∧ ∀ x ∈ g, x ∈ l
  | [], g, hg => by simp [chunkPairs] at hg
  | [a], g, hg => by
    simp only [chunkPairs, List.mem_singleton] at hg
    subst hg
    exact ⟨by simp, by simp⟩
  | a :: b :: t, g, hg => by
    rw [chunkPairs] at hg
    rcases List.mem_cons.mp hg with hg | hg
    · subst hg
      constructor
      · simp
      · intro x hx
        rcases List.mem_cons.mp hx with hx | hx
        · simp [hx]
        · simp at hx
          simp [hx]
    · obtain ⟨hne, hsub⟩ := chunkPairs_groups t g hg
      exact ⟨hne, fun x hx => by simp [hsub x hx]⟩

/-- The contribution of the later groups equals the divider-prefixed
rendering of the grouped tokens. -/
theorem pairsTail_eq_joinTail :
    ∀ (groups : List (List Str)), (∀ g ∈ groups, g ≠ []) →
      pairsTail groups = joinTail PROCEDURE_OR_AIRWAY_SEGMENT_DIVIDER
        groups.flatten
  | [], _ => rfl
  | g :: gs, h => by
    cases hg : g with
    | nil => exact absurd hg (h g (by simp))
    | cons g0 gt =>
      subst hg
      have htail := pairsTail_eq_joinTail gs (fun x hx => h x (by simp [hx]))
      simp only [pairsTail, List.map_cons, List.flatten_cons] at htail ⊢
      rw [joinSep_cons_eq_joinTail PROCEDURE_OR_AIRWAY_SEGMENT_DIVIDER gt g0,
        htail]
      simp [joinTail, List.append_assoc]

/-- The first segment together with the later group contributions renders
the whole chunk. -/
theorem chunkSegs_renders (c : List Str) (hc : c ≠ []) :
    joinSep PROCEDURE_OR_AIRWAY_SEGMENT_DIVIDER (c.take 3) ++
      pairsTail (chunkPairs (c.drop 3)) = renderChunk c := by
  rw [pairsTail_eq_joinTail (chunkPairs (c.drop 3))
      (fun g hg => (chunkPairs_groups (c.drop 3) g hg).1),
    flatten_chunkPairs,
    ← joinSep_append_join PROCEDURE_OR_AIRWAY_SEGMENT_DIVIDER (c.take 3)
      (c.drop 3) (by simp [hc]),
    List.take_append_drop]
  rfl

/-- Splitting never yields the empty list of parts. -/
theorem splitOn_ne_nil (d : Char) (x : Str) : List.splitOn d x ≠ [] := by
  unfold List.splitOn
  exact List.splitOnP_ne_nil _ _

/-- The reassembly loop merges every segment the divide step emitted for the
later token groups of one chunk back onto the current direct segment: each
such segment starts with the exit fix of the previous one, so the entry
comparison succeeds and only the divider-prefixed remainder is appended. -/
theorem calcLoop_merge_chunk :
    ∀ (groups : List (List Str)) (prevGroup : List Str) (done : List Str)
        (cur prevSeg : Str) (rest : List Str),
      (∀ g ∈ groups, g ≠ [] ∧
        ∀ t ∈ g, PROCEDURE_OR_AIRWAY_SEGMENT_DIVIDER ∉ t) →
      prevGroup ≠ [] →
      PROCEDURE_OR_AIRWAY_SEGMENT_DIVIDER ∉ jsLast prevGroup →
      jsLast (List.splitOn PROCEDURE_OR_AIRWAY_SEGMENT_DIVIDER prevSeg) =
        jsLast prevGroup →
      ∃ prevSeg2,
        jsLast (List.splitOn PROCEDURE_OR_AIRWAY_SEGMENT_DIVIDER prevSeg2) =
          jsLast (groups.getLastD prevGroup) ∧
        calcLoop done cur prevSeg (divideChunkLoop prevGroup groups ++ rest) =
          calcLoop done (cur ++ pairsTail groups) prevSeg2 rest
  | [], prevGroup, done, cur, prevSeg, rest, _, _, _, hinv => by
    refine ⟨prevSeg, ?_, ?_⟩
    · simpa [List.getLastD_nil] using hinv
    · simp [divideChunkLoop, pairsTail]
  | g :: gs, prevGroup, done, cur, prevSeg, rest, hg, hpg, hfree, hinv => by
    have hg1 : g ≠ [] := (hg g (by simp)).1
    have hgfree : ∀ t ∈ g, PROCEDURE_OR_AIRWAY_SEGMENT_DIVIDER ∉ t :=
      (hg g (by simp)).2
    have hsplit_g :
        List.splitOn PROCEDURE_OR_AIRWAY_SEGMENT_DIVIDER
            (joinSep PROCEDURE_OR_AIRWAY_SEGMENT_DIVIDER g) = g :=
      splitOn_joinSep _ g hg1 hgfree
    have hsplit_seg :
        List.splitOn PROCEDURE_OR_AIRWAY_SEGMENT_DIVIDER
            (jsLast prevGroup ++ PROCEDURE_OR_AIRWAY_SEGMENT_DIVIDER ::
              joinSep PROCEDURE_OR_AIRWAY_SEGMENT_DIVIDER g) =
          jsLast prevGroup ::
            List.splitOn PROCEDURE_OR_AIRWAY_SEGMENT_DIVIDER
              (joinSep PROCEDURE_OR_AIRWAY_SEGMENT_DIVIDER g) :=
      splitOn_cons_of_free _ _ hfree _
    have hinv2 :
        jsLast (List.splitOn PROCEDURE_OR_AIRWAY_SEGMENT_DIVIDER
            (jsLast prevGroup ++ PROCEDURE_OR_AIRWAY_SEGMENT_DIVIDER ::
              joinSep PROCEDURE_OR_AIRWAY_SEGMENT_DIVIDER g)) = jsLast g := by
      rw [hsplit_seg, jsLast_cons_of_ne _ _ (splitOn_ne_nil _ _), hsplit_g]
    have hfree2 : PROCEDURE_OR_AIRWAY_SEGMENT_DIVIDER ∉ jsLast g :=
      hgfree (jsLast g) (jsLast_mem g hg1)
    obtain ⟨prevSeg2, hlast2, heq⟩ :=
      calcLoop_merge_chunk gs g done
        (cur ++ (PROCEDURE_OR_AIRWAY_SEGMENT_DIVIDER ::
          joinSep PROCEDURE_OR_AIRWAY_SEGMENT_DIVIDER g))
        (jsLast prevGroup ++ PROCEDURE_OR_AIRWAY_SEGMENT_DIVIDER ::
          joinSep PROCEDURE_OR_AIRWAY_SEGMENT_DIVIDER g)
        rest (fun x hx => hg x (by simp [hx])) hg1 hfree2 hinv2
    refine ⟨prevSeg2, ?_, ?_⟩
    · rw [hlast2, List.getLastD_cons]
    · have hstep :
          calcLoop done cur prevSeg
              ((jsLast prevGroup ++ PROCEDURE_OR_AIRWAY_SEGMENT_DIVIDER ::
                joinSep PROCEDURE_OR_AIRWAY_SEGMENT_DIVIDER g) ::
                (divideChunkLoop g gs ++ rest)) =
            calcLoop done
              (cur ++ (PROCEDURE_OR_AIRWAY_SEGMENT_DIVIDER ::
                joinSep PROCEDURE_OR_AIRWAY_SEGMENT_DIVIDER g))
              (jsLast prevGroup ++ PROCEDURE_OR_AIRWAY_SEGMENT_DIVIDER ::
                joinSep PROCEDURE_OR_AIRWAY_SEGMENT_DIVIDER g)
              (divideChunkLoop g gs ++ rest) := by
        simp only [calcLoop, hsplit_seg, jsFirst_cons, hinv]
        rw [if_pos trivial, replaceFirst_pref]
      rw [divideChunkLoop, List.cons_append, hstep, heq]
      have hptail : pairsTail (g :: gs) =
          (PROCEDURE_OR_AIRWAY_SEGMENT_DIVIDER ::
            joinSep PROCEDURE_OR_AIRWAY_SEGMENT_DIVIDER g) ++ pairsTail gs := by
        simp [pairsTail]
      rw [hptail, ← List.append_assoc]

/-- The last token of the last group of a chunk pairing, with the first
segment as fallback, is the last token of the grouped list. -/
theorem jsLast_getLastD_chunkPairs :
    ∀ (l : List Str) (dflt : List Str), l ≠ [] →
      jsLast ((chunkPairs l).getLastD dflt) = jsLast l
  | [], _, h => absurd rfl h
  | [_], _, _ => rfl
  | [_, _], _, _ => rfl
  | a :: b :: x :: xs, dflt, _ => by
    rw [chunkPairs, List.getLastD_cons,
      jsLast_getLastD_chunkPairs (x :: xs) [a, b] (by simp),
      jsLast_cons_cons, jsLast_cons_of_ne b (x :: xs) (by simp)]

/-- The last token of a chunk survives the first-three and pair grouping. -/
theorem chunk_last_token (c : List Str) :
    jsLast ((chunkPairs (c.drop 3)).getLastD (c.take 3)) = jsLast c := by
  by_cases hdrop : c.drop 3 = []
  · have hlen : c.length ≤ 3 := List.drop_eq_nil_iff.mp hdrop
    have htake : c.take 3 = c := List.take_of_length_le hlen
    rw [hdrop]
    simp only [chunkPairs, List.getLastD_nil]
    rw [htake]
  · rw [jsLast_getLastD_chunkPairs (c.drop 3) (c.take 3) hdrop]
    conv_rhs => rw [← List.take_append_drop 3 c]
    rw [jsLast_append_right _ _ hdrop]

/-- The reassembly loop, fed the divide output of a chunk list whose chunks
are well formed and whose boundaries are distinct from the running exit
token, appends exactly the rendered chunks as new direct segments. -/
theorem calcLoop_chunks :
    ∀ (chunks : List (List Str)) (done : List Str) (cur prevSeg prevTok : Str),
      (∀ c ∈ chunks, c ≠ [] ∧
        ∀ t ∈ c, PROCEDURE_OR_AIRWAY_SEGMENT_DIVIDER ∉ t) →
      jsLast (List.splitOn PROCEDURE_OR_AIRWAY_SEGMENT_DIVIDER prevSeg) =
        prevTok →
      chainFrom prevTok chunks = true →
      calcLoop done cur prevSeg ((chunks.map chunkSegs).flatten) =
        done ++ cur :: chunks.map renderChunk
  | [], done, cur, prevSeg, prevTok, _, _, _ => by simp [calcLoop]
  | c :: cs, done, cur, prevSeg, prevTok, hwf, hinv, hchain => by
    obtain ⟨hcne, hcfree⟩ := hwf c (by simp)
    have htake_ne : c.take 3 ≠ [] := by
      cases c with
      | nil => exact absurd rfl hcne
      | cons a t => simp
    have htakefree : ∀ t ∈ c.take 3, PROCEDURE_OR_AIRWAY_SEGMENT_DIVIDER ∉ t :=
      fun t ht => hcfree t (List.take_subset 3 c ht)
    have hs0 :
        List.splitOn PROCEDURE_OR_AIRWAY_SEGMENT_DIVIDER
            (joinSep PROCEDURE_OR_AIRWAY_SEGMENT_DIVIDER (c.take 3)) =
          c.take 3 :=
      splitOn_joinSep _ (c.take 3) htake_ne htakefree
    have hchain1 := hchain
    rw [chainFrom, Bool.and_eq_true] at hchain1
    obtain ⟨hne_tok, hchain2⟩ := hchain1
    have hne_tok2 : ¬ (jsFirst c = prevTok) := by
      intro heq2
      rw [bne_iff_ne] at hne_tok
      exact hne_tok heq2.symm
    have hgroups : ∀ g ∈ chunkPairs (c.drop 3), g ≠ [] ∧
        ∀ t ∈ g, PROCEDURE_OR_AIRWAY_SEGMENT_DIVIDER ∉ t := by
      intro g hgmem
      obtain ⟨hgne, hgsub⟩ := chunkPairs_groups (c.drop 3) g hgmem
      exact ⟨hgne, fun t ht => hcfree t (List.drop_subset 3 c (hgsub t ht))⟩
    have hfree3 : PROCEDURE_OR_AIRWAY_SEGMENT_DIVIDER ∉ jsLast (c.take 3) :=
      htakefree (jsLast (c.take 3)) (jsLast_mem (c.take 3) htake_ne)
    have hinv3 :
        jsLast (List.splitOn PROCEDURE_OR_AIRWAY_SEGMENT_DIVIDER
            (joinSep PROCEDURE_OR_AIRWAY_SEGMENT_DIVIDER (c.take 3))) =
          jsLast (c.take 3) := by rw [hs0]
    obtain ⟨prevSeg2, hlast2, heq⟩ :=
      calcLoop_merge_chunk (chunkPairs (c.drop 3)) (c.take 3) (done ++ [cur])
        (joinSep PROCEDURE_OR_AIRWAY_SEGMENT_DIVIDER (c.take 3))
        (joinSep PROCEDURE_OR_AIRWAY_SEGMENT_DIVIDER (c.take 3))
        ((cs.map chunkSegs).flatten) hgroups htake_ne hfree3 hinv3
    have hstep :
        calcLoop done cur prevSeg
            (joinSep PROCEDURE_OR_AIRWAY_SEGMENT_DIVIDER (c.take 3) ::
              (divideChunkLoop (c.take 3) (chunkPairs (c.drop 3)) ++
                (cs.map chunkSegs).flatten)) =
          calcLoop (done ++ [cur])
            (joinSep PROCEDURE_OR_AIRWAY_SEGMENT_DIVIDER (c.take 3))
            (joinSep PROCEDURE_OR_AIRWAY_SEGMENT_DIVIDER (c.take 3))
            (divideChunkLoop (c.take 3) (chunkPairs (c.drop 3)) ++
              (cs.map chunkSegs).flatten) := by
      simp only [calcLoop, hs0, hinv, jsFirst_take3 c hcne]
      rw [if_neg hne_tok2]
    have hlastc : jsLast (List.splitOn PROCEDURE_OR_AIRWAY_SEGMENT_DIVIDER
        prevSeg2) = jsLast c := by
      rw [hlast2, chunk_last_token c]
    have hrec := calcLoop_chunks cs (done ++ [cur]) (renderChunk c) prevSeg2
      (jsLast c) (fun x hx => hwf x (by simp [hx])) hlastc hchain2
    calc calcLoop done cur prevSeg (((c :: cs).map chunkSegs).flatten)
        = calcLoop done cur prevSeg
            (joinSep PROCEDURE_OR_AIRWAY_SEGMENT_DIVIDER (c.take 3) ::
              (divideChunkLoop (c.take 3) (chunkPairs (c.drop 3)) ++
                (cs.map chunkSegs).flatten)) := by
          simp [chunkSegs]
      _ = calcLoop (done ++ [cur])
            (joinSep PROCEDURE_OR_AIRWAY_SEGMENT_DIVIDER (c.take 3))
            (joinSep PROCEDURE_OR_AIRWAY_SEGMENT_DIVIDER (c.take 3))
            (divideChunkLoop (c.take 3) (chunkPairs (c.drop 3)) ++
              (cs.map chunkSegs).flatten) := hstep
      _ = calcLoop (done ++ [cur])
            (joinSep PROCEDURE_OR_AIRWAY_SEGMENT_DIVIDER (c.take 3) ++
              pairsTail (chunkPairs (c.drop 3)))
            prevSeg2 ((cs.map chunkSegs).flatten) := heq
      _ = calcLoop (done ++ [cur]) (renderChunk c) prevSeg2
            ((cs.map chunkSegs).flatten) := by
          rw [chunkSegs_renders c hcne]
      _ = (done ++ [cur]) ++ renderChunk c :: cs.map renderChunk := hrec
      _ = done ++ cur :: (c :: cs).map renderChunk := by simp

/-- Unpacking of token well-formedness. -/
theorem tokenWF_spec (t : Str) (h : tokenWF t = true) :
    t ≠ [] ∧ PROCEDURE_OR_AIRWAY_SEGMENT_DIVIDER ∉ t ∧
      DIRECT_SEGMENT_DIVIDER ∉ t ∧ ' ' ∉ t := by
  simp only [tokenWF, Bool.and_eq_true, Bool.not_eq_true'] at h
  obtain ⟨⟨⟨h1, h2⟩, h3⟩, h4⟩ := h
  refine ⟨?_, ?_, ?_, ?_⟩
  · simpa using h1
  · simpa using h2
  · simpa using h3
  · simpa using h4

/-- Unpacking of chunk well-formedness. -/
theorem chunkWF_spec (c : List Str) (h : chunkWF c = true) :
    c ≠ [] ∧ ∀ t ∈ c, tokenWF t = true := by
  simp only [chunkWF, Bool.and_eq_true, Bool.not_eq_true',
    List.all_eq_true] at h
  exact ⟨by simpa using h.1, h.2⟩

/-- A rendered route from well-formed chunks contains no space. -/
theorem renderRoute_space_free (chunks : List (List Str))
    (h : ∀ c ∈ chunks, chunkWF c = true) : ' ' ∉ renderRoute chunks := by
  intro hmem
  rcases mem_joinSep _ _ _ hmem with heq | ⟨p, hp, hmemp⟩
  · exact absurd heq (by decide)
  · rcases List.mem_map.mp hp with ⟨c, hc, rfl⟩
    rcases mem_joinSep _ _ _ hmemp with heq | ⟨t, ht, hmt⟩
    · exact absurd heq (by decide)
    · exact (tokenWF_spec t ((chunkWF_spec c (h c hc)).2 t ht)).2.2.2 hmt

/-- A rendered chunk from well-formed tokens contains no direct divider. -/
theorem renderChunk_colon_free (c : List Str)
    (h : ∀ t ∈ c, tokenWF t = true) :
    DIRECT_SEGMENT_DIVIDER ∉ renderChunk c := by
  intro hmem
  rcases mem_joinSep _ _ _ hmem with heq | ⟨t, ht, hmt⟩
  · exact absurd heq (by decide)
  · exact (tokenWF_spec t (h t ht)).2.2.1 hmt

/-- On a rendered chunk the divide step works at token level. -/
theorem divideChunk_render (c : List Str) (hne : c ≠ [])
    (hfree : ∀ t ∈ c, PROCEDURE_OR_AIRWAY_SEGMENT_DIVIDER ∉ t) :
    divideChunk (renderChunk c) = chunkSegs c := by
  simp only [divideChunk, renderChunk, chunkSegs]
  rw [splitOn_joinSep _ c hne hfree]

/-- Entering one chunk during reassembly: the chunk's first segment seeds the
current direct segment, every later segment merges, and the accumulated
direct segment becomes exactly the rendered chunk. -/
theorem chunk_start (c : List Str) (hcne : c ≠ [])
    (hcfree : ∀ t ∈ c, PROCEDURE_OR_AIRWAY_SEGMENT_DIVIDER ∉ t)
    (done : List Str) (rest : List Str) :
    ∃ prevSeg2,
      jsLast (List.splitOn PROCEDURE_OR_AIRWAY_SEGMENT_DIVIDER prevSeg2) =
        jsLast c ∧
      calcLoop done (joinSep PROCEDURE_OR_AIRWAY_SEGMENT_DIVIDER (c.take 3))
          (joinSep PROCEDURE_OR_AIRWAY_SEGMENT_DIVIDER (c.take 3))
          (divideChunkLoop (c.take 3) (chunkPairs (c.drop 3)) ++ rest) =
        calcLoop done (renderChunk c) prevSeg2 rest := by
  have htake_ne : c.take 3 ≠ [] := by
    cases c with
    | nil => exact absurd rfl hcne
    | cons a t => simp
  have htakefree : ∀ t ∈ c.take 3, PROCEDURE_OR_AIRWAY_SEGMENT_DIVIDER ∉ t :=
    fun t ht => hcfree t (List.take_subset 3 c ht)
  have hgroups : ∀ g ∈ chunkPairs (c.drop 3), g ≠ [] ∧
      ∀ t ∈ g, PROCEDURE_OR_AIRWAY_SEGMENT_DIVIDER ∉ t := by
    intro g hgmem
    obtain ⟨hgne, hgsub⟩ := chunkPairs_groups (c.drop 3) g hgmem
    exact ⟨hgne, fun t ht => hcfree t (List.drop_subset 3 c (hgsub t ht))⟩
  have hfree3 : PROCEDURE_OR_AIRWAY_SEGMENT_DIVIDER ∉ jsLast (c.take 3) :=
    htakefree (jsLast (c.take 3)) (jsLast_mem (c.take 3) htake_ne)
  have hinv3 :
      jsLast (List.splitOn PROCEDURE_OR_AIRWAY_SEGMENT_DIVIDER
          (joinSep PROCEDURE_OR_AIRWAY_SEGMENT_DIVIDER (c.take 3))) =
        jsLast (c.take 3) := by
    rw [splitOn_joinSep _ (c.take 3) htake_ne htakefree]
  obtain ⟨prevSeg2, hlast2, heq⟩ :=
    calcLoop_merge_chunk (chunkPairs (c.drop 3)) (c.take 3) done
      (joinSep PROCEDURE_OR_AIRWAY_SEGMENT_DIVIDER (c.take 3))
      (joinSep PROCEDURE_OR_AIRWAY_SEGMENT_DIVIDER (c.take 3))
      rest hgroups htake_ne hfree3 hinv3
  refine ⟨prevSeg2, ?_, ?_⟩
  · rw [hlast2, chunk_last_token c]
  · rw [heq, chunkSegs_renders c hcne]

/-- Divide half of the round trip: on a rendered well-formed route the
segmentation succeeds and produces the per-chunk segment lists. -/
theorem routeChunks_divide (chunks : List (List Str))
    (h : routeChunksWF chunks = true) :
    _divideRouteStringIntoSegments (RouteStringInput.str (renderRoute chunks)) =
      some ((chunks.map chunkSegs).flatten) := by
  have hall : ∀ c ∈ chunks, chunkWF c = true := by
    cases chunks with
    | nil => simp [routeChunksWF] at h
    | cons c cs =>
      rw [routeChunksWF, Bool.and_eq_true, List.all_eq_true] at h
      exact h.1
  have hne : chunks ≠ [] := by
    cases chunks with
    | nil => simp [routeChunksWF] at h
    | cons c cs => simp
  have hspace : ' ' ∉ renderRoute chunks := renderRoute_space_free chunks hall
  simp only [_divideRouteStringIntoSegments]
  rw [if_neg (by simpa using hspace)]
  have hsplit : List.splitOn DIRECT_SEGMENT_DIVIDER (renderRoute chunks) =
      chunks.map renderChunk := by
    refine splitOn_joinSep _ (chunks.map renderChunk) ?_ ?_
    · cases chunks with
      | nil => exact absurd rfl hne
      | cons c cs => simp
    · intro p hp
      rcases List.mem_map.mp hp with ⟨c, hc, rfl⟩
      exact renderChunk_colon_free c (chunkWF_spec c (hall c hc)).2
  rw [hsplit, List.map_map]
  have hmap : chunks.map (divideChunk ∘ renderChunk) = chunks.map chunkSegs :=
    List.map_congr_left (fun c hc => by
      have hspec := chunkWF_spec c (hall c hc)
      exact divideChunk_render c hspec.1
        (fun t ht => (tokenWF_spec t (hspec.2 t ht)).2.1))
  rw [hmap]

/-- Reassembly half of the round trip: the segment lists of a well-formed
route reassemble to the rendered route string. -/
theorem routeChunks_reassemble (chunks : List (List Str))
    (h : routeChunksWF chunks = true) :
    calcRouteString ((chunks.map chunkSegs).flatten) = renderRoute chunks := by
  cases chunks with
  | nil => simp [routeChunksWF] at h
  | cons c cs =>
    rw [routeChunksWF, Bool.and_eq_true, List.all_eq_true] at h
    obtain ⟨hall, hchain⟩ := h
    obtain ⟨hcne, hctok⟩ := chunkWF_spec c (hall c (by simp))
    have hcfree : ∀ t ∈ c, PROCEDURE_OR_AIRWAY_SEGMENT_DIVIDER ∉ t :=
      fun t ht => (tokenWF_spec t (hctok t ht)).2.1
    have hshape : ((c :: cs).map chunkSegs).flatten =
        joinSep PROCEDURE_OR_AIRWAY_SEGMENT_DIVIDER (c.take 3) ::
          (divideChunkLoop (c.take 3) (chunkPairs (c.drop 3)) ++
            (cs.map chunkSegs).flatten) := by
      simp [chunkSegs]
    rw [hshape]
    simp only [calcRouteString]
    obtain ⟨prevSeg2, hlast2, heq⟩ :=
      chunk_start c hcne hcfree [] ((cs.map chunkSegs).flatten)
    rw [heq]
    have hcs : ∀ x ∈ cs, x ≠ [] ∧
        ∀ t ∈ x, PROCEDURE_OR_AIRWAY_SEGMENT_DIVIDER ∉ t := by
      intro x hx
      obtain ⟨hx1, hx2⟩ := chunkWF_spec x (hall x (by simp [hx]))
      exact ⟨hx1, fun t ht => (tokenWF_spec t (hx2 t ht)).2.1⟩
    rw [calcLoop_chunks cs [] (renderChunk c) prevSeg2 (jsLast c) hcs hlast2
      hchain]
    rfl

/-- Leg construction records each segment as the leg's route string. -/
theorem legsFromSegments_routeStrings (mkLeg : Str → Option LegModel)
    (hmk : ∀ s leg, mkLeg s = some leg → leg.routeString = s) :
    ∀ (segs : List Str) (legs : List LegModel),
      legsFromSegments mkLeg segs = some legs →
      legs.map (fun legModel => legModel.routeString) = segs
  | [], legs, h => by
    simp only [legsFromSegments, Option.some.injEq] at h
    subst h
    rfl
  | seg :: rest, legs, h => by
    rw [legsFromSegments] at h
    cases hm : mkLeg seg with
    | none => rw [hm] at h; cases h
    | some leg =>
      rw [hm] at h
      cases hrest : legsFromSegments mkLeg rest with
      | none => rw [hrest] at h; cases h
      | some legs2 =>
        rw [hrest] at h
        simp only [Option.some.injEq] at h
        subst h
        rw [List.map_cons, hmk seg leg hm,
          legsFromSegments_routeStrings mkLeg hmk rest legs2 hrest]

/-- C1 (amended): for every well-formed chunk structure, meaning nonempty
chunks of nonempty divider-free fix tokens where the final fix of each chunk
differs from the first fix of the next chunk, the route string rendered from
it divides into segments, the legs built from those segments carry them as
route strings, and `_calculateRouteStringForLegs` reassembles those legs to
the original route string exactly. -/
theorem route_round_trip (chunks : List (List Str))
    (mkLeg : Str → Option LegModel) (legs : List LegModel)
    (hwf : routeChunksWF chunks = true)
    (hmk : ∀ s leg, mkLeg s = some leg → leg.routeString = s)
    (hgen : _generateLegsFromRouteString mkLeg
      (RouteStringInput.str (renderRoute chunks)) = some legs) :
    _calculateRouteStringForLegs legs = renderRoute chunks := by
  have hdiv := routeChunks_divide chunks hwf
  rw [_generateLegsFromRouteString, hdiv] at hgen
  have hsegs := legsFromSegments_routeStrings mkLeg hmk
    ((chunks.map chunkSegs).flatten) legs hgen
  rw [_calculateRouteStringForLegs, hsegs]
  exact routeChunks_reassemble chunks hwf

/-- C1 counterexample: the route string SXC:SXC (two direct single-fix
segments sharing the same fix name) is accepted by route construction and
divides into the two segments SXC and SXC, yet reassembly merges them into
the single-fix string SXC: the fix content is not preserved even though the
repeated fix is not a within-chunk transition fix. -/
theorem route_round_trip_counterexample :
    _divideRouteStringIntoSegments (RouteStringInput.str (S "SXC:SXC")) =
      some [S "SXC", S "SXC"] ∧
    _generateLegsFromRouteString demoMkLeg
        (RouteStringInput.str (S "SXC:SXC")) =
      some [mkDemoLeg (S "SXC") [S "SXC"], mkDemoLeg (S "SXC") [S "SXC"]] ∧
    (RouteModel.init demoMkLeg (RouteStringInput.str (S "SXC:SXC"))).isSome =
      true ∧
    _calculateRouteStringForLegs
        [mkDemoLeg (S "SXC") [S "SXC"], mkDemoLeg (S "SXC") [S "SXC"]] =
      S "SXC" ∧
    S "SXC" ≠ S "SXC:SXC" := by
  refine ⟨by decide, by decide, by decide, by decide, by decide⟩

/-- The chunk structure of the KSFO28R.OFFSH9.SXC.V458.IPL example: one chunk
of five fix tokens. -/
def ksfoChunks : List (List Str) :=
  [[S "KSFO28R", S "OFFSH9", S "SXC", S "V458", S "IPL"]]

/-- The two legs the demo constructor builds for the KSFO example. -/
def ksfoLegs : List LegModel :=
  [mkDemoLeg (S "KSFO28R.OFFSH9.SXC") [S "KSFO28R.OFFSH9.SXC"],
   mkDemoLeg (S "SXC.V458.IPL") [S "SXC.V458.IPL"]]

/-- C1 witness: the KSFO28R.OFFSH9.SXC.V458.IPL example round-trips: it
segments into KSFO28R.OFFSH9.SXC and SXC.V458.IPL and reassembles to the
original string unchanged. -/
theorem route_round_trip_witness :
    renderRoute ksfoChunks = S "KSFO28R.OFFSH9.SXC.V458.IPL" ∧
    _generateLegsFromRouteString demoMkLeg
        (RouteStringInput.str (renderRoute ksfoChunks)) = some ksfoLegs ∧
    ksfoLegs.map (fun legModel => legModel.routeString) =
      [S "KSFO28R.OFFSH9.SXC", S "SXC.V458.IPL"] ∧
    _calculateRouteStringForLegs ksfoLegs = renderRoute ksfoChunks := by
  refine ⟨by decide, by decide, by decide,
    route_round_trip ksfoChunks demoMkLeg ksfoLegs (by decide) ?_ (by decide)⟩
  intro s leg h
  have hh : some (mkDemoLeg s [s]) = some leg := h
  rw [← Option.some.inj hh]
  rfl

/-- C9 counterexample: `destroy` does not return every mutable field to its
constructor default.  On a waypoint whose vector flag, fly-over flag and
holding-pattern inbound heading were set, all three survive `destroy`
unchanged, while the constructor defaults are `false`, `false` and `-1`. -/
theorem destroy_leaves_vector_flag_set :
    demoVectorWaypoint.destroy._isVector = true ∧
      demoVectorWaypoint.destroy._isFlyOverWaypoint = true ∧
      demoVectorWaypoint.destroy._holdingPatternInboundHeading = 2 ∧
      waypointDefaults._isVector = false ∧
      waypointDefaults._isFlyOverWaypoint = false ∧
      waypointDefaults._holdingPatternInboundHeading = -1 := by
  refine ⟨rfl, rfl, rfl, rfl, rfl, rfl⟩

/-- C9 (amended): `destroy` resets the stored name, turn direction, leg
length, hold flag, the four restriction fields and the timer to their
constructor defaults and drops the position reference to `null`, but it
leaves the holding-pattern inbound heading, the fly-over flag and the vector
flag untouched. -/
theorem destroy_resets_listed_fields (w : WaypointModel) :
    w.destroy._name = waypointDefaults._name ∧
      w.destroy._turnDirection = waypointDefaults._turnDirection ∧
      w.destroy._legLength = waypointDefaults._legLength ∧
      w.destroy._positionModel = none ∧
      w.destroy.isHold = waypointDefaults.isHold ∧
      w.destroy.speedMaximum = waypointDefaults.speedMaximum ∧
      w.destroy.speedMinimum = waypointDefaults.speedMinimum ∧
      w.destroy.altitudeMaximum = waypointDefaults.altitudeMaximum ∧
      w.destroy.altitudeMinimum = waypointDefaults.altitudeMinimum ∧
      w.destroy.timer = waypointDefaults.timer ∧
      w.destroy._holdingPatternInboundHeading = w._holdingPatternInboundHeading ∧
      w.destroy._isFlyOverWaypoint = w._isFlyOverWaypoint ∧
      w.destroy._isVector = w._isVector := by
  refine ⟨rfl, rfl, rfl, rfl, rfl, rfl, rfl, rfl, rfl, rfl, rfl, rfl, rfl⟩

/-- C10: the public `name` setter never stores its argument.  Its result does
not depend on the `nameUpdate` parameter at all; when no global binding named
`name` exists the call throws a `ReferenceError` and no state is produced,
and when such a binding exists the stored identifier becomes the value of the
global binding, still independent of the argument. -/
theorem setName_ignores_argument (g : Option Str) (w : WaypointModel)
    (a b : Str) :
    WaypointModel.setName g w a = WaypointModel.setName g w b ∧
      WaypointModel.setName none w a = Except.error () ∧
      (∀ v : Str, WaypointModel.setName (some v) w a =
        Except.ok { w with _name := v }) := by
  refine ⟨rfl, rfl, fun v => rfl⟩

end Openscope
